import Mathlib

/-!
Verification of amenic-images: the "now playing" image generator (`main.go`)

A shallow embedding of the pure parts of `main.go`: the filter and the batch
loop of `createNowPlayingImages`, the poster filename derivation and the layout
constants of `createNowPlayingImage`, the cache check of `downloadImage`, and
the date formatter (`getMonthText`, `formatDateRange`).

Go strings are modelled by Lean strings (sequences of characters); goroutine
launches are recorded, in launch order, as a list of the calls made.
-/

namespace Amenic

/-! ## Data model -/

/-- The part of a `time.Time` the program reads: `Month()` and `Day()`. -/
structure Time where
  Month : Nat
  Day : Int
  deriving DecidableEq, Repr

/-- Mirror of `DateRange`. -/
structure DateRange where
  Start : Time
  End : Time
  deriving DecidableEq, Repr

/-- Mirror of `StaticMovie` (the release date is never read by the code modelled here). -/
structure StaticMovie where
  Title : String
  PosterURL : String
  Theatres : String
  MovieURL : String
  SessionType : Int
  deriving DecidableEq, Repr

/-! ## fmt.Sprintf, strings.ToLower -/

/-- An operand of `fmt.Sprintf`. -/
inductive FmtArg where
  | int (n : Int)
  | str (s : String)
  deriving DecidableEq, Repr

/-- Decimal rendering of an `int` under the verb `%d`: no padding, a leading `-` when negative. -/
def formatInt : Int → String
  | Int.ofNat m => Nat.repr m
  | Int.negSucc m => "-" ++ Nat.repr (m + 1)

/-- The fragment of `fmt.Sprintf` the program uses, on the characters of the format:
`%d` consumes an integer operand, `%s` a string operand, any other character is copied.
The formats of the program hold no other verb and give each verb an operand of its kind. -/
def sprintfChars : List Char → List FmtArg → List Char
  | [], _ => []
  | [c], _ => [c]
  | c :: d :: rest, args =>
    if c = '%' then
      match d, args with
      | 'd', FmtArg.int n :: args' => (formatInt n).data ++ sprintfChars rest args'
      | 's', FmtArg.str s :: args' => s.data ++ sprintfChars rest args'
      | _, _ => c :: sprintfChars (d :: rest) args
    else c :: sprintfChars (d :: rest) args

/-- Model of `fmt.Sprintf(format, args...)`. -/
def Sprintf (format : String) (args : List FmtArg) : String :=
  String.mk (sprintfChars format.data args)

/-- Model of `strings.ToLower`: maps `A`..`Z` to `a`..`z` and leaves every other character
as it is (which is what Go does on every string this program lowercases: the month names,
whose only non-ASCII character, `ç`, is already lower case). -/
def ToLower (s : String) : String :=
  String.mk (s.data.map Char.toLower)

/-! ## getMonthText, formatDateRange -/

/-- Mirror of `getMonthText`; `time.January` is 1, ..., `time.December` is 12. -/
def getMonthText (m : Nat) : String :=
  match m with
  | 1 => "Janeiro"
  | 2 => "Fevereiro"
  | 3 => "Março"
  | 4 => "Abril"
  | 5 => "Maio"
  | 6 => "Junho"
  | 7 => "Julho"
  | 8 => "Agosto"
  | 9 => "Setembro"
  | 10 => "Outubro"
  | 11 => "Novembro"
  | 12 => "Dezembro"
  | _ => ""

/-- Mirror of `formatDateRange`. -/
def formatDateRange (dr : DateRange) (lowercased : Bool) : String :=
  let sm := dr.Start.Month
  let sd := dr.Start.Day
  let em := dr.End.Month
  let ed := dr.End.Day
  let endMonth := if lowercased then ToLower (getMonthText em) else getMonthText em
  if sm ≠ em then
    let startMonth := if lowercased then ToLower (getMonthText sm) else getMonthText sm
    Sprintf "%d de %s a %d de %s"
      [FmtArg.int sd, FmtArg.str startMonth, FmtArg.int ed, FmtArg.str endMonth]
  else
    Sprintf "%d a %d de %s" [FmtArg.int sd, FmtArg.int ed, FmtArg.str endMonth]

/-! ## createNowPlayingImages -/

/-- One `go asyncCreateNowPlayingImage(week, movies, output, wg)` call. -/
structure Launch where
  week : String
  movies : List StaticMovie
  output : String
  deriving DecidableEq, Repr

/-- The filter loop of `createNowPlayingImages`: `items` is the slice built so far,
the first argument is what is left of `movies`; an entry with an empty `Theatres` breaks. -/
def filterLoop : List StaticMovie → List StaticMovie → List StaticMovie
  | [], items => items
  | it :: rest, items =>
    if it.Theatres ≠ "" then filterLoop rest (items ++ [it]) else items

/-- The local constant `cols := 3` of `createNowPlayingImages`. -/
def cols : Nat := 3

/-- The inner loop `for n := 0; n < cols; n++`: `left` is `cols - n`. -/
def collectLoop (items : List StaticMovie) (i : Nat) :
    Nat → Nat → List StaticMovie → List StaticMovie
  | 0, _, arr => arr
  | left + 1, n, arr =>
    if h : i + n ≥ items.length then arr
    else collectLoop items i left (n + 1) (arr ++ [items.get ⟨i + n, by omega⟩])

/-- The outer loop `for i := 0; i < size-1; i += cols`, returning the launches made from
index `i` on, `created` being the counter at that point. -/
def batchLoop (rangeFormatted : String) (items : List StaticMovie)
    (i created : Nat) : List Launch :=
  if (i : Int) < (items.length : Int) - 1 then
    let arr := collectLoop items i cols 0 []
    let output := Sprintf "Em cartaz %s-%d.png"
      [FmtArg.str rangeFormatted, FmtArg.int ((created : Int) + 1)]
    Launch.mk rangeFormatted arr output ::
      batchLoop rangeFormatted items (i + cols) (created + 1)
  else []
termination_by items.length - i
decreasing_by simp only [cols]; omega

/-- The slice `items` of `createNowPlayingImages` once the filter loop is over. -/
def nowPlayingItems (movies : List StaticMovie) : List StaticMovie :=
  filterLoop movies []

/-- Mirror of `createNowPlayingImages`: the launches it makes, in order. -/
def createNowPlayingImages (week : DateRange) (movies : List StaticMovie) : List Launch :=
  let items := nowPlayingItems movies
  let size := items.length
  if size = 0 then []
  else
    let rangeFormatted := formatDateRange week true
    batchLoop rangeFormatted items 0 0

/-! ## createNowPlayingImage: poster filename -/

/-- The backward scan of `strings.LastIndex(s, sep)` for a one-character `sep`:
positions `i-1`, ..., `0` are tried in that order; `-1` when none matches. -/
def lastIndexFrom (s : List Char) (c : Char) : Nat → Int
  | 0 => -1
  | i + 1 => if s.get? i = some c then (i : Int) else lastIndexFrom s c i

/-- Model of `strings.LastIndex(s, sep)` for a one-character `sep`. Positions count
characters where Go counts bytes; for the separator `/`, a single byte that occurs inside
no multi-byte UTF-8 sequence, the slice `s[idx+1:]` holds the same text either way. -/
def LastIndex (s : String) (c : Char) : Int :=
  lastIndexFrom s.data c s.data.length

/-- The slice expression `s[lo:]`; `none` stands for the run-time panic of an index
out of range. -/
def sliceFrom (s : String) (lo : Int) : Option String :=
  if 0 ≤ lo ∧ lo ≤ (s.data.length : Int) then some (String.mk (s.data.drop lo.toNat)) else none

/-- The part `url[idx+1:]` of the filename, `idx := strings.LastIndex(url, "/")`. -/
def urlLastSegment (url : String) : Option String :=
  let idx := LastIndex url '/'
  sliceFrom url (idx + 1)

/-- The local `filename` of `createNowPlayingImage` for an entry with detail URL `url`. -/
def posterFilename (url : String) : Option String :=
  (urlLastSegment url).map (fun seg => seg ++ ".jpg")

/-! ## downloadImage -/

/-- The global `FolderImages`. -/
def FolderImages : String := "./data/images/"

/-- The environment of `downloadImage`: what a GET of a URL answers (`none`: the request
or the read of the body fails) and whether a write to a path succeeds. -/
structure World where
  httpGet : String → Option (List Nat)
  writeOK : String → Bool

/-- The state `downloadImage` acts on: the files present (path and contents) and the log
of the URLs requested, oldest first. -/
structure DiskNet where
  files : List (String × List Nat)
  gets : List String
  deriving DecidableEq, Repr

/-- Whether `os.Stat(path)` finds the file. -/
def fileExists (st : DiskNet) (path : String) : Bool :=
  st.files.any (fun f => f.1 == path)

/-- Mirror of `downloadImage`: the returned path and the new state; `none` is a panic. -/
def downloadImage (w : World) (url filename : String) (st : DiskNet) :
    Option (String × DiskNet) :=
  let filepath := FolderImages ++ "/downloaded/" ++ filename
  if fileExists st filepath = false then
    let st1 : DiskNet := { st with gets := st.gets ++ [url] }
    match w.httpGet url with
    | none => none
    | some data =>
      if w.writeOK filepath then
        some (filepath, { st1 with files := st1.files ++ [(filepath, data)] })
      else none
  else some (filepath, st)

/-! ## createNowPlayingImage: layout constants (exact rationals) -/

/-- Mirror of `Inset`. -/
structure Inset where
  Left : ℚ
  Right : ℚ
  Top : ℚ
  Bottom : ℚ

/-- The local `width := 1000.0`. -/
def width : ℚ := 1000

/-- The local `inset := Inset{Left: 10.0, Right: 10.0}`. -/
def inset : Inset := { Left := 10, Right := 10, Top := 0, Bottom := 0 }

/-- The local `totalSpace := width - inset.Left - inset.Right`. -/
def totalSpace : ℚ := width - inset.Left - inset.Right

/-- The local `itemw := totalSpace * 0.3`. -/
def itemw : ℚ := totalSpace * (3 / 10)

/-- The local `margin := (totalSpace - (itemw * cols)) / 2.0`, `cols := 3.0`. -/
def margin : ℚ := (totalSpace - itemw * 3) / 2

/-- The local `space := 10.0`. -/
def space : ℚ := 10

/-- The local `totalWidthOfItems` for a batch of `count` entries. -/
def totalWidthOfItems (count : Int) : ℚ :=
  (count : ℚ) * itemw + ((count - 1 : Int) : ℚ) * space

/-- The local `actualWidth := width - margin - margin`. -/
def actualWidth : ℚ := width - margin - margin

/-- The local `tx := actualWidth/2 - totalWidthOfItems/2`. -/
def tx (count : Int) : ℚ := actualWidth / 2 - totalWidthOfItems count / 2

/-- The value of `x` at the start of iteration `i` of the drawing loop
(`x := 0.0`, then `x += space + itemw` at the end of each iteration). -/
def itemLeft : Nat → ℚ
  | 0 => 0
  | i + 1 => itemLeft i + (space + itemw)

/-- Canvas abscissa of the left edge of item `i`, after `dc.Translate(margin, 0)` and
`dc.Translate(tx, 0)`. -/
def absLeft (count : Int) (i : Nat) : ℚ := margin + tx count + itemLeft i

/-- Canvas abscissa of the right edge of item `i` (`right := left + itemw`). -/
def absRight (count : Int) (i : Nat) : ℚ := absLeft count i + itemw

/-! ## createNowPlayingImage: shared title height -/

/-- The local `titleWidth := itemw - inset.Left*2 - inset.Right*2`. -/
def titleWidth : ℚ := itemw - inset.Left * 2 - inset.Right * 2

/-- The title measuring loop: `measure title w ls` stands for the height returned by
`dc.MeasureMultilineString(strings.Join(dc.WordWrap(title, w), "\n"), ls)`. -/
def titleHeightLoop (measure : String → ℚ → ℚ → ℚ) : List StaticMovie → ℚ → ℚ
  | [], titleHeight => titleHeight
  | it :: rest, titleHeight =>
    let th := measure it.Title titleWidth (12 / 10)
    titleHeightLoop measure rest (if th > titleHeight then th else titleHeight)

/-- The local `titleHeight` of `createNowPlayingImage` after the measuring loop. -/
def titleHeight (measure : String → ℚ → ℚ → ℚ) (movies : List StaticMovie) : ℚ :=
  titleHeightLoop measure movies 0

/-! ## Reading a decimal numeral back -/

/-- Value of a string of decimal digits. -/
def decimalValue (cs : List Char) : Nat :=
  cs.foldl (fun a c => 10 * a + (c.toNat - 48)) 0

/-! ## Sample inputs -/

/-- A feed entry that is currently showing, named by its slug. -/
def sampleMovie (slug : String) : StaticMovie :=
  { Title := slug
    PosterURL := "https://img.amenic.app/" ++ slug ++ ".jpg"
    Theatres := "CINEMAIS - IBICINEMAS"
    MovieURL := "https://amenic.app/movie/" ++ slug
    SessionType := 0 }

/-- A feed entry that is not showing yet. -/
def upcomingMovie (slug : String) : StaticMovie :=
  { sampleMovie slug with Theatres := "" }

/-- The week April 28 to May 2. -/
def sampleWeek : DateRange := ⟨⟨4, 28⟩, ⟨5, 2⟩⟩

/-- A network that answers every GET and a disk that accepts every write. -/
def sampleWorld : World :=
  { httpGet := fun _ => some [255, 216, 255], writeOK := fun _ => true }

/-- An empty cache directory, no request made yet. -/
def emptyDiskNet : DiskNet := { files := [], gets := [] }

/-! ## Lemmas on the loops -/

theorem filterLoop_eq (movies items : List StaticMovie) :
    filterLoop movies items = items ++ movies.takeWhile (fun it => decide (it.Theatres ≠ "")) := by
  induction movies generalizing items with
  | nil => simp [filterLoop]
  | cons it rest ih =>
    by_cases h : it.Theatres = ""
    · simp [filterLoop, h]
    · simp [filterLoop, h, ih]

theorem collectLoop_eq (items : List StaticMovie) (i left n : Nat) (arr : List StaticMovie) :
    collectLoop items i left n arr = arr ++ (items.drop (i + n)).take left := by
  induction left generalizing n arr with
  | zero => simp [collectLoop]
  | succ left ih =>
    rw [collectLoop]
    split
    · rename_i h
      rw [List.drop_eq_nil_of_le h]
      simp
    · rename_i h
      have hlt : i + n < items.length := by omega
      rw [ih, List.drop_eq_getElem_cons hlt, List.take_succ_cons]
      simp [Nat.add_assoc]

/-- The name given to the batch with counter value `created`. -/
theorem output_eq (r : String) (created : Nat) :
    Sprintf "Em cartaz %s-%d.png" [FmtArg.str r, FmtArg.int ((created : Int) + 1)]
      = "Em cartaz " ++ r ++ "-" ++ Nat.repr (created + 1) ++ ".png" := by
  have h : formatInt ((created : Int) + 1) = Nat.repr (created + 1) := rfl
  apply String.ext
  simp [Sprintf, sprintfChars, h]

/-- Closed form of the outer loop. -/
theorem batchLoop_eq (r : String) (items : List StaticMovie) (m : Nat) :
    ∀ i created, (items.length + 1 - i) / 3 = m →
      batchLoop r items i created =
        (List.range m).map (fun t =>
          Launch.mk r ((items.drop (i + 3 * t)).take 3)
            ("Em cartaz " ++ r ++ "-" ++ Nat.repr (created + t + 1) ++ ".png")) := by
  induction m with
  | zero =>
    intro i created h
    rw [batchLoop]
    have : ¬ ((i : Int) < (items.length : Int) - 1) := by omega
    simp [this]
  | succ m ih =>
    intro i created h
    rw [batchLoop]
    have hlt : (i : Int) < (items.length : Int) - 1 := by omega
    simp only [hlt, if_true]
    rw [ih (i + cols) (created + 1) (by simp only [cols]; omega), List.range_succ_eq_map,
      List.map_cons, List.map_map, output_eq, collectLoop_eq]
    simp only [cols, List.nil_append, Nat.add_zero, Nat.mul_zero]
    congr 1
    apply List.map_congr_left
    intro t _
    simp only [Function.comp, Nat.succ_eq_add_one]
    have e1 : i + 3 + 3 * t = i + 3 * (t + 1) := by omega
    have e2 : created + 1 + t + 1 = created + (t + 1) + 1 := by omega
    rw [e1, e2]

/-- Closed form of `createNowPlayingImages`. -/
theorem createNowPlayingImages_eq (week : DateRange) (movies : List StaticMovie) :
    createNowPlayingImages week movies =
      (List.range (((nowPlayingItems movies).length + 1) / 3)).map (fun t =>
        Launch.mk (formatDateRange week true) (((nowPlayingItems movies).drop (3 * t)).take 3)
          ("Em cartaz " ++ formatDateRange week true ++ "-" ++ Nat.repr (t + 1) ++ ".png")) := by
  unfold createNowPlayingImages
  by_cases h : (nowPlayingItems movies).length = 0
  · simp [h]
  · simp only [h, if_false]
    rw [batchLoop_eq (formatDateRange week true) (nowPlayingItems movies) _ 0 0 rfl]
    simp

theorem createNowPlayingImages_length (week : DateRange) (movies : List StaticMovie) :
    (createNowPlayingImages week movies).length = ((nowPlayingItems movies).length + 1) / 3 := by
  rw [createNowPlayingImages_eq]
  simp

/-! ## Decimal numerals are read back -/

theorem digitChar_toNat (d : Nat) (h : d < 10) : (Nat.digitChar d).toNat - 48 = d := by
  interval_cases d <;> rfl

theorem foldl_toDigitsCore (fuel : Nat) :
    ∀ (n : Nat) (ds : List Char), n < fuel →
      (Nat.toDigitsCore 10 fuel n ds).foldl (fun a c => 10 * a + (c.toNat - 48)) 0
        = ds.foldl (fun a c => 10 * a + (c.toNat - 48)) n := by
  induction fuel with
  | zero => intro n ds h; omega
  | succ fuel ih =>
    intro n ds h
    have hd := digitChar_toNat (n % 10) (Nat.mod_lt _ (by decide))
    simp only [Nat.toDigitsCore]
    split
    · rename_i h0
      simp only [List.foldl_cons, hd]
      congr 1
      omega
    · rename_i h0
      rw [ih (n / 10) _ (by omega)]
      simp only [List.foldl_cons, hd]
      congr 1
      omega

theorem decimalValue_repr (n : Nat) : decimalValue (Nat.repr n).data = n := by
  unfold decimalValue Nat.repr Nat.toDigits
  simp only [List.asString]
  rw [foldl_toDigitsCore (n + 1) n [] (by omega)]
  rfl

theorem repr_injective : Function.Injective Nat.repr := by
  intro a b h
  have := congrArg (fun s => decimalValue s.data) h
  simpa [decimalValue_repr] using this

/-- Output names with different indices differ. -/
theorem outputName_injective (r : String) :
    Function.Injective (fun k : Nat => "Em cartaz " ++ r ++ "-" ++ Nat.repr (k + 1) ++ ".png") := by
  intro a b h
  have h1 := congrArg String.data h
  simp only [String.data_append, List.append_assoc] at h1
  have h2 := List.append_cancel_left h1
  have h3 := List.append_cancel_left h2
  have h4 := List.append_cancel_left h3
  have h5 := List.append_cancel_right h4
  have h6 : Nat.repr (a + 1) = Nat.repr (b + 1) := String.ext h5
  have := repr_injective h6
  omega

theorem join_slices (items : List StaticMovie) (m : Nat) :
    ((List.range m).map (fun j => (items.drop (3 * j)).take 3)).flatten = items.take (3 * m) := by
  induction m with
  | zero => simp
  | succ m ih =>
    rw [List.range_succ, List.map_append, List.flatten_append, ih]
    simp only [List.map_cons, List.map_nil, List.flatten_cons, List.flatten_nil, List.append_nil]
    rw [Nat.mul_succ, List.take_add]

/-! ## Claims on the batch loop -/

/-- C5: the batch launched k-th (k from 1) is named
"Em cartaz " ++ formatDateRange(week, true) ++ "-" ++ decimal(k) ++ ".png"; so the indices
are 1, 2, ..., number of batches, and the names of one run are pairwise distinct. -/
theorem createNowPlayingImages_output_names (week : DateRange) (movies : List StaticMovie) :
    (createNowPlayingImages week movies).map Launch.output =
        (List.range (createNowPlayingImages week movies).length).map (fun j =>
          "Em cartaz " ++ formatDateRange week true ++ "-" ++ Nat.repr (j + 1) ++ ".png")
      ∧ ((createNowPlayingImages week movies).map Launch.week =
          List.replicate (createNowPlayingImages week movies).length (formatDateRange week true))
      ∧ ((createNowPlayingImages week movies).map Launch.output).Nodup := by
  have hout : (createNowPlayingImages week movies).map Launch.output =
        (List.range (createNowPlayingImages week movies).length).map (fun j =>
          "Em cartaz " ++ formatDateRange week true ++ "-" ++ Nat.repr (j + 1) ++ ".png") := by
    rw [createNowPlayingImages_length, createNowPlayingImages_eq, List.map_map]
    rfl
  refine ⟨hout, ?_, ?_⟩
  · rw [createNowPlayingImages_length, createNowPlayingImages_eq, List.map_map]
    apply List.ext_getElem <;> simp
  · rw [hout]
    exact List.Nodup.map (outputName_injective _) (List.nodup_range _)

/-- C10: the batch launched j-th (j from 0) is the contiguous slice
items[3j .. min(3j+3, N) - 1] of the currently-showing prefix, in feed order; every batch
launched is non-empty with at most 3 entries, and the batches put end to end are an initial
segment of the prefix (no entry twice, none out of order). -/
theorem createNowPlayingImages_batches_are_slices (week : DateRange)
    (movies : List StaticMovie) :
    (createNowPlayingImages week movies).map Launch.movies =
        (List.range (createNowPlayingImages week movies).length).map (fun j =>
          ((nowPlayingItems movies).drop (3 * j)).take 3)
      ∧ (List.range (createNowPlayingImages week movies).length).map
          (fun j => (((nowPlayingItems movies).drop (3 * j)).take 3).length) =
        (List.range (createNowPlayingImages week movies).length).map
          (fun j => min (3 * j + 3) (nowPlayingItems movies).length - 3 * j)
      ∧ (∀ l ∈ createNowPlayingImages week movies, 1 ≤ l.movies.length ∧ l.movies.length ≤ 3)
      ∧ ((createNowPlayingImages week movies).map Launch.movies).flatten =
          (nowPlayingItems movies).take (3 * (createNowPlayingImages week movies).length) := by
  have hmov : (createNowPlayingImages week movies).map Launch.movies =
        (List.range (createNowPlayingImages week movies).length).map (fun j =>
          ((nowPlayingItems movies).drop (3 * j)).take 3) := by
    rw [createNowPlayingImages_length, createNowPlayingImages_eq, List.map_map]
    rfl
  refine ⟨hmov, ?_, ?_, ?_⟩
  · apply List.map_congr_left
    intro j _
    simp only [List.length_take, List.length_drop]
    omega
  · intro l hl
    have hm : l.movies ∈ (createNowPlayingImages week movies).map Launch.movies :=
      List.mem_map_of_mem _ hl
    rw [hmov, createNowPlayingImages_length] at hm
    obtain ⟨j, hj, hjl⟩ := List.mem_map.mp hm
    rw [List.mem_range] at hj
    rw [← hjl]
    simp only [List.length_take, List.length_drop]
    omega
  · rw [hmov, join_slices]

/-- C1: the number of batches launched is ceil((N-1)/3), not ceil(N/3), N the length of
the currently-showing prefix: the loop bound `i < size-1` stops one index early, so a
prefix of 1 entry launches no batch and a prefix of 4 entries launches a single batch
(index 1, the first three entries), the fourth entry being left out. -/
theorem createNowPlayingImages_count_stops_early :
    (∀ week movies, (createNowPlayingImages week movies).length =
        ((nowPlayingItems movies).length + 1) / 3)
      ∧ nowPlayingItems [sampleMovie "a"] = [sampleMovie "a"]
      ∧ createNowPlayingImages sampleWeek [sampleMovie "a"] = []
      ∧ nowPlayingItems [sampleMovie "a", sampleMovie "b", sampleMovie "c", sampleMovie "d"]
          = [sampleMovie "a", sampleMovie "b", sampleMovie "c", sampleMovie "d"]
      ∧ createNowPlayingImages sampleWeek
          [sampleMovie "a", sampleMovie "b", sampleMovie "c", sampleMovie "d"]
          = [Launch.mk "28 de abril a 2 de maio"
              [sampleMovie "a", sampleMovie "b", sampleMovie "c"]
              "Em cartaz 28 de abril a 2 de maio-1.png"] := by
  refine ⟨createNowPlayingImages_length, by decide, ?_, by decide, ?_⟩
  · rw [createNowPlayingImages_eq]
    decide
  · rw [createNowPlayingImages_eq]
    decide

theorem takeWhile_within_of_stop (p : StaticMovie → Bool) (pre post : List StaticMovie)
    (e : StaticMovie) (he : p e = false) :
    (pre ++ e :: post).takeWhile p <+: pre := by
  induction pre with
  | nil => simp [List.takeWhile, he]
  | cons a pre ih =>
    by_cases ha : p a = true
    · simpa [List.takeWhile, ha, List.cons_prefix_cons] using ih
    · simp [List.takeWhile, ha]

/-- C2: the entries kept as currently showing are the longest leading run of entries with
a non-empty Theatres field, in feed order: the scan stops at the first entry whose
Theatres field is empty, nothing after it is kept, and a list whose first entry has an
empty Theatres field launches no batch. -/
theorem nowPlayingItems_leading_run (movies : List StaticMovie) :
    nowPlayingItems movies = movies.takeWhile (fun it => decide (it.Theatres ≠ ""))
      ∧ (∃ rest, movies = nowPlayingItems movies ++ rest
          ∧ ∀ first ∈ rest.head?, first.Theatres = "")
      ∧ (∀ it ∈ nowPlayingItems movies, it.Theatres ≠ "")
      ∧ (∀ pre e post, movies = pre ++ e :: post → e.Theatres = "" →
          nowPlayingItems movies <+: pre)
      ∧ (∀ week first rest, movies = first :: rest → first.Theatres = "" →
          createNowPlayingImages week movies = [])
      ∧ (∀ week, ∀ l ∈ createNowPlayingImages week movies,
          ∀ it ∈ l.movies, it ∈ nowPlayingItems movies)
      ∧ nowPlayingItems
          [sampleMovie "a", sampleMovie "b", upcomingMovie "c", sampleMovie "d"]
          = [sampleMovie "a", sampleMovie "b"] := by
  have hk : nowPlayingItems movies = movies.takeWhile (fun it => decide (it.Theatres ≠ "")) := by
    simp [nowPlayingItems, filterLoop_eq]
  refine ⟨hk, ?_, ?_, ?_, ?_, ?_, by decide⟩
  · refine ⟨movies.dropWhile (fun it => decide (it.Theatres ≠ "")), ?_, ?_⟩
    · rw [hk, List.takeWhile_append_dropWhile]
    · intro first hfirst
      have := List.head?_dropWhile_not (fun it : StaticMovie => decide (it.Theatres ≠ "")) movies
      rw [Option.mem_def] at hfirst
      rw [hfirst] at this
      simpa using this
  · intro it hit
    rw [hk] at hit
    simpa using List.mem_takeWhile_imp hit
  · intro pre e post hm he
    rw [hk, hm]
    exact takeWhile_within_of_stop _ pre post e (by simp [he])
  · intro week first rest hm hf
    rw [createNowPlayingImages_eq, hk, hm]
    simp [List.takeWhile, hf]
  · intro week l hl it hit
    rw [createNowPlayingImages_eq] at hl
    obtain ⟨t, _, rfl⟩ := List.mem_map.mp hl
    exact List.mem_of_mem_drop (List.mem_of_mem_take hit)

/-! ## Claims on the date formatter -/

/-- Both branches of `formatDateRange`, with the format strings expanded. -/
theorem formatDateRange_eq (dr : DateRange) (lowercased : Bool) :
    formatDateRange dr lowercased =
      if dr.Start.Month = dr.End.Month then
        formatInt dr.Start.Day ++ " a " ++ formatInt dr.End.Day ++ " de "
          ++ (if lowercased then ToLower (getMonthText dr.End.Month)
              else getMonthText dr.End.Month)
      else
        formatInt dr.Start.Day ++ " de "
          ++ (if lowercased then ToLower (getMonthText dr.Start.Month)
              else getMonthText dr.Start.Month)
          ++ " a " ++ formatInt dr.End.Day ++ " de "
          ++ (if lowercased then ToLower (getMonthText dr.End.Month)
              else getMonthText dr.End.Month) := by
  unfold formatDateRange
  by_cases h : dr.Start.Month = dr.End.Month
  · simp only [h, ne_eq, not_true_eq_false, if_false, if_true]
    apply String.ext
    simp [Sprintf, sprintfChars]
  · simp only [h, ne_eq, not_false_eq_true, if_false, if_true]
    apply String.ext
    simp [Sprintf, sprintfChars]

/-- C3: formatDateRange(dr, false) is "<sd> a <ed> de <Month(em)>" when the two months are
equal and "<sd> de <Month(sm)> a <ed> de <Month(em)>" otherwise, Month being getMonthText
(Janeiro, ..., Dezembro) and the days printed in decimal without padding; May 3 to May 10
gives "3 a 10 de Maio", April 28 to May 2 gives "28 de Abril a 2 de Maio". -/
theorem formatDateRange_plain (dr : DateRange) :
    formatDateRange dr false =
        (if dr.Start.Month = dr.End.Month then
          formatInt dr.Start.Day ++ " a " ++ formatInt dr.End.Day ++ " de "
            ++ getMonthText dr.End.Month
        else
          formatInt dr.Start.Day ++ " de " ++ getMonthText dr.Start.Month
            ++ " a " ++ formatInt dr.End.Day ++ " de " ++ getMonthText dr.End.Month)
      ∧ [1, 2, 3, 4, 5, 6, 7, 8, 9, 10, 11, 12].map getMonthText =
          ["Janeiro", "Fevereiro", "Março", "Abril", "Maio", "Junho", "Julho", "Agosto",
            "Setembro", "Outubro", "Novembro", "Dezembro"]
      ∧ (List.range 31).map (fun d => formatInt ((d : Int) + 1)) =
          ["1", "2", "3", "4", "5", "6", "7", "8", "9", "10", "11", "12", "13", "14", "15",
            "16", "17", "18", "19", "20", "21", "22", "23", "24", "25", "26", "27", "28",
            "29", "30", "31"]
      ∧ formatDateRange ⟨⟨5, 3⟩, ⟨5, 10⟩⟩ false = "3 a 10 de Maio"
      ∧ formatDateRange ⟨⟨4, 28⟩, ⟨5, 2⟩⟩ false = "28 de Abril a 2 de Maio" := by
  refine ⟨?_, by decide, by decide, by decide, by decide⟩
  rw [formatDateRange_eq]
  simp

/-- C4: formatDateRange(dr, true) is formatDateRange(dr, false) with the month name(s)
replaced by their lowercase form and nothing else changed: same day numbers, same
connecting words; in a cross-month range both month names are lowercased. -/
theorem formatDateRange_lowercased (dr : DateRange) :
    (dr.Start.Month = dr.End.Month →
        formatDateRange dr false =
          formatInt dr.Start.Day ++ " a " ++ formatInt dr.End.Day ++ " de "
            ++ getMonthText dr.End.Month
        ∧ formatDateRange dr true =
          formatInt dr.Start.Day ++ " a " ++ formatInt dr.End.Day ++ " de "
            ++ ToLower (getMonthText dr.End.Month))
      ∧ (dr.Start.Month ≠ dr.End.Month →
        formatDateRange dr false =
          formatInt dr.Start.Day ++ " de " ++ getMonthText dr.Start.Month
            ++ " a " ++ formatInt dr.End.Day ++ " de " ++ getMonthText dr.End.Month
        ∧ formatDateRange dr true =
          formatInt dr.Start.Day ++ " de " ++ ToLower (getMonthText dr.Start.Month)
            ++ " a " ++ formatInt dr.End.Day ++ " de " ++ ToLower (getMonthText dr.End.Month))
      ∧ [1, 2, 3, 4, 5, 6, 7, 8, 9, 10, 11, 12].map (fun m => ToLower (getMonthText m)) =
          ["janeiro", "fevereiro", "março", "abril", "maio", "junho", "julho", "agosto",
            "setembro", "outubro", "novembro", "dezembro"]
      ∧ formatDateRange ⟨⟨5, 3⟩, ⟨5, 10⟩⟩ true = "3 a 10 de maio"
      ∧ formatDateRange ⟨⟨4, 28⟩, ⟨5, 2⟩⟩ true = "28 de abril a 2 de maio" := by
  refine ⟨?_, ?_, by decide, by decide, by decide⟩
  · intro h
    rw [formatDateRange_eq, formatDateRange_eq]
    simp [h]
  · intro h
    rw [formatDateRange_eq, formatDateRange_eq]
    simp [h]

/-! ## Claims on the poster filename -/

/-- What the backward scan returns: `-1` when `c` does not occur among the first `i`
characters, else the last position below `i` holding `c`. -/
theorem lastIndexFrom_spec (s : List Char) (c : Char) :
    ∀ i, i ≤ s.length →
      (lastIndexFrom s c i = -1 ∧ c ∉ s.take i) ∨
      (∃ k, k < i ∧ lastIndexFrom s c i = (k : Int) ∧
        s.take i = s.take k ++ c :: (s.take i).drop (k + 1) ∧ c ∉ (s.take i).drop (k + 1)) := by
  intro i
  induction i with
  | zero => intro _; left; simp [lastIndexFrom]
  | succ i ih =>
    intro hi
    have hlt : i < s.length := by omega
    have htake : s.take (i + 1) = s.take i ++ [s[i]] := by
      rw [List.take_succ, List.getElem?_eq_getElem hlt]; rfl
    rw [lastIndexFrom]
    by_cases hc : s.get? i = some c
    · right
      rw [if_pos hc]
      have hsi : s[i] = c := by
        rw [List.get?_eq_getElem?, List.getElem?_eq_getElem hlt] at hc
        exact Option.some.inj hc
      have hnil : (s.take (i + 1)).drop (i + 1) = [] :=
        List.drop_eq_nil_of_le (by rw [List.length_take]; omega)
      refine ⟨i, by omega, rfl, ?_, ?_⟩
      · rw [hnil, htake, hsi]
      · rw [hnil]
        simp
    · have hsi : s[i] ≠ c := by
        intro h
        apply hc
        rw [List.get?_eq_getElem?, List.getElem?_eq_getElem hlt, h]
      rw [if_neg hc]
      rcases ih (by omega) with ⟨h1, h2⟩ | ⟨k, hk, h1, h2, h3⟩
      · left
        refine ⟨h1, ?_⟩
        intro hmem
        rw [htake, List.mem_append, List.mem_singleton] at hmem
        rcases hmem with h | h
        · exact h2 h
        · exact hsi h.symm
      · right
        have hkl : k + 1 ≤ (s.take i).length := by
          rw [List.length_take, Nat.min_eq_left (Nat.le_of_lt hlt)]; omega
        have hdrop : (s.take (i + 1)).drop (k + 1) = (s.take i).drop (k + 1) ++ [s[i]] := by
          rw [htake, List.drop_append_of_le_length hkl]
        refine ⟨k, by omega, h1, ?_, ?_⟩
        · rw [hdrop, htake]
          nth_rewrite 1 [h2]
          simp
        · rw [hdrop]
          intro hmem
          rw [List.mem_append, List.mem_singleton] at hmem
          rcases hmem with h | h
          · exact h3 h
          · exact hsi h.symm

/-- The tail after the last occurrence of `c` is determined by the list. -/
theorem tail_after_last_unique (c : Char) (p1 p2 s1 s2 : List Char)
    (h : p1 ++ c :: s1 = p2 ++ c :: s2) (h1 : c ∉ s1) (h2 : c ∉ s2) : s1 = s2 := by
  rcases List.append_eq_append_iff.mp h with ⟨a, _, ha⟩ | ⟨a, _, ha⟩
  · cases a with
    | nil => simpa using ha
    | cons x a =>
      simp only [List.cons_append, List.cons.injEq] at ha
      exact absurd (by rw [ha.2]; simp) h1
  · cases a with
    | nil => simpa using ha.symm
    | cons x a =>
      simp only [List.cons_append, List.cons.injEq] at ha
      exact absurd (by rw [ha.2]; simp) h2

/-- C6: the poster filename is the part of the detail URL after its final "/" followed
by ".jpg"; that part holds no "/", is empty when the URL ends in "/", is the whole URL
when the URL holds no "/", and the slice index idx+1 is always within range. -/
theorem posterFilename_last_segment (url : String) :
    ∃ seg : String, urlLastSegment url = some seg
      ∧ posterFilename url = some (seg ++ ".jpg")
      ∧ (0 ≤ LastIndex url '/' + 1 ∧ LastIndex url '/' + 1 ≤ (url.data.length : Int))
      ∧ '/' ∉ seg.data
      ∧ ('/' ∈ url.data → ∃ pre : String, url = pre ++ "/" ++ seg)
      ∧ ('/' ∉ url.data → seg = url)
      ∧ (∀ pre : String, url = pre ++ "/" → seg = "") := by
  have hspec := lastIndexFrom_spec url.data '/' url.data.length (Nat.le_refl _)
  rw [List.take_length] at hspec
  rcases hspec with ⟨hidx, hno⟩ | ⟨k, hk, hidx, hsplit, hno⟩
  · have hI : LastIndex url '/' = -1 := hidx
    refine ⟨url, ?_, ?_, ?_, hno, ?_, ?_, ?_⟩
    · simp [urlLastSegment, sliceFrom, hI]
    · simp [posterFilename, urlLastSegment, sliceFrom, hI]
    · rw [hI]; omega
    · intro h; exact absurd h hno
    · intro _; rfl
    · intro pre hpre
      exfalso
      apply hno
      rw [hpre]
      simp
  · have hI : LastIndex url '/' = (k : Int) := hidx
    have hseg : urlLastSegment url = some (String.mk (url.data.drop (k + 1))) := by
      have h1 : (0 : Int) ≤ (k : Int) + 1 := by omega
      have h2 : (k : Int) + 1 ≤ (url.data.length : Int) := by omega
      have h3 : ((k : Int) + 1).toNat = k + 1 := by omega
      simp only [urlLastSegment, sliceFrom, hI, h1, h2, h3, and_self, if_true]
    refine ⟨String.mk (url.data.drop (k + 1)), hseg, ?_, ?_, hno, ?_, ?_, ?_⟩
    · simp [posterFilename, hseg]
    · rw [hI]; omega
    · intro _
      refine ⟨String.mk (url.data.take k), ?_⟩
      apply String.ext
      simp only [String.data_append, List.append_assoc]
      exact hsplit
    · intro h
      exfalso
      apply h
      rw [hsplit]
      simp
    · intro pre hpre
      have hd : url.data = pre.data ++ '/' :: [] := by
        rw [hpre]; rfl
      have := tail_after_last_unique '/' _ _ _ _ (hsplit.symm.trans hd) hno (by simp)
      apply String.ext
      simpa using this

/-! ## Claims on the download cache -/

/-- C7: with the GET and the write succeeding, two calls of downloadImage in sequence for
the same URL and filename make exactly one GET when the file was absent at the start and
none when it was present; the second call leaves the state unchanged and both calls
return the same path. -/
theorem downloadImage_twice (w : World) (url filename : String) (st : DiskNet)
    (data : List Nat) (hget : w.httpGet url = some data)
    (hwrite : w.writeOK (FolderImages ++ "/downloaded/" ++ filename) = true) :
    ∃ st1, downloadImage w url filename st
          = some (FolderImages ++ "/downloaded/" ++ filename, st1)
      ∧ downloadImage w url filename st1
          = some (FolderImages ++ "/downloaded/" ++ filename, st1)
      ∧ (fileExists st (FolderImages ++ "/downloaded/" ++ filename) = false →
          st1.gets = st.gets ++ [url] ∧ st1.gets.length = st.gets.length + 1
          ∧ st1.files = st.files ++ [(FolderImages ++ "/downloaded/" ++ filename, data)])
      ∧ (fileExists st (FolderImages ++ "/downloaded/" ++ filename) = true → st1 = st) := by
  by_cases hex : fileExists st (FolderImages ++ "/downloaded/" ++ filename) = true
  · refine ⟨st, ?_, ?_, ?_, fun _ => rfl⟩
    · simp [downloadImage, hex]
    · simp [downloadImage, hex]
    · intro h; rw [hex] at h; exact absurd h (by decide)
  · have hex0 : fileExists st (FolderImages ++ "/downloaded/" ++ filename) = false := by
      simpa using hex
    refine ⟨{ files := st.files ++ [(FolderImages ++ "/downloaded/" ++ filename, data)],
              gets := st.gets ++ [url] }, ?_, ?_, fun _ => ⟨rfl, by simp, rfl⟩, ?_⟩
    · simp [downloadImage, hex0, hget, hwrite]
    · have hnow : fileExists
          { files := st.files ++ [(FolderImages ++ "/downloaded/" ++ filename, data)],
            gets := st.gets ++ [url] } (FolderImages ++ "/downloaded/" ++ filename) = true := by
        simp [fileExists]
      simp [downloadImage, hnow]
    · intro h; exact absurd h hex

/-- C7 at a concrete input: an empty cache, then the poster of one entry fetched twice. -/
theorem downloadImage_twice_witness :
    sampleWorld.httpGet "https://img.amenic.app/a.jpg" = some [255, 216, 255]
      ∧ sampleWorld.writeOK (FolderImages ++ "/downloaded/" ++ "a.jpg") = true
      ∧ ∃ st1, downloadImage sampleWorld "https://img.amenic.app/a.jpg" "a.jpg" emptyDiskNet
          = some (FolderImages ++ "/downloaded/" ++ "a.jpg", st1)
        ∧ downloadImage sampleWorld "https://img.amenic.app/a.jpg" "a.jpg" st1
          = some (FolderImages ++ "/downloaded/" ++ "a.jpg", st1)
        ∧ (fileExists emptyDiskNet (FolderImages ++ "/downloaded/" ++ "a.jpg") = false →
          st1.gets = emptyDiskNet.gets ++ ["https://img.amenic.app/a.jpg"]
          ∧ st1.gets.length = emptyDiskNet.gets.length + 1
          ∧ st1.files = emptyDiskNet.files
              ++ [(FolderImages ++ "/downloaded/" ++ "a.jpg", [255, 216, 255])])
        ∧ (fileExists emptyDiskNet (FolderImages ++ "/downloaded/" ++ "a.jpg") = true →
          st1 = emptyDiskNet) :=
  ⟨rfl, rfl, downloadImage_twice sampleWorld "https://img.amenic.app/a.jpg" "a.jpg"
    emptyDiskNet [255, 216, 255] rfl rfl⟩

/-! ## Claims on the layout -/

/-- C8: with exact rationals (item width 294, margin 49), for a batch of k entries,
k in 1..3, the row width k*itemw + (k-1)*10 is at most the canvas width minus the two
margins (902), the centring offset tx is non-negative and is zero exactly when k = 3,
and every item of the centred row lies within [margin, width - margin]. -/
theorem row_fits_canvas (k : Int) (hk : k = 1 ∨ k = 2 ∨ k = 3) :
    itemw = 294 ∧ margin = 49 ∧ width - margin - margin = 902
      ∧ totalWidthOfItems k ≤ width - margin - margin
      ∧ 0 ≤ tx k ∧ (tx k = 0 ↔ k = 3)
      ∧ margin ≤ margin + tx k
      ∧ margin + tx k + totalWidthOfItems k ≤ width - margin
      ∧ (∀ i : Nat, (i : Int) < k →
          margin ≤ absLeft k i ∧ absLeft k i ≤ absRight k i ∧ absRight k i ≤ width - margin)
      ∧ absRight k (k - 1).toNat = margin + tx k + totalWidthOfItems k := by
  have hw : itemw = 294 := by norm_num [itemw, totalSpace, width, inset]
  have hm : margin = 49 := by norm_num [margin, hw, totalSpace, width, inset]
  have h0 : itemLeft 0 = 0 := rfl
  have h1 : itemLeft 1 = 304 := by norm_num [itemLeft, hw, space]
  have h2 : itemLeft 2 = 608 := by norm_num [itemLeft, hw, space]
  have w1 : totalWidthOfItems 1 = 294 := by norm_num [totalWidthOfItems, hw, space]
  have w2 : totalWidthOfItems 2 = 598 := by norm_num [totalWidthOfItems, hw, space]
  have w3 : totalWidthOfItems 3 = 902 := by norm_num [totalWidthOfItems, hw, space]
  have t1 : tx 1 = 304 := by norm_num [tx, actualWidth, w1, hm, width]
  have t2 : tx 2 = 152 := by norm_num [tx, actualWidth, w2, hm, width]
  have t3 : tx 3 = 0 := by norm_num [tx, actualWidth, w3, hm, width]
  have e1 : ((1 : Int) - 1).toNat = 0 := rfl
  have e2 : ((2 : Int) - 1).toNat = 1 := rfl
  have e3 : ((3 : Int) - 1).toNat = 2 := rfl
  have hi : ∀ i : Nat, (i : Int) < k → i = 0 ∨ i = 1 ∨ i = 2 := by
    intro i hlt; omega
  rcases hk with rfl | rfl | rfl
  · refine ⟨hw, hm, by norm_num [hm, width], by norm_num [w1, hm, width],
      by norm_num [t1], by norm_num [t1], by norm_num [t1, hm],
      by norm_num [t1, w1, hm, width], ?_, by rw [e1, w1]; simp only [absRight, absLeft, h0, hw]; ring⟩
    intro i hlt
    rcases hi i hlt with rfl | rfl | rfl
    · norm_num [absLeft, absRight, t1, hm, hw, width, h0]
    · exfalso; omega
    · exfalso; omega
  · refine ⟨hw, hm, by norm_num [hm, width], by norm_num [w2, hm, width],
      by norm_num [t2], by norm_num [t2], by norm_num [t2, hm],
      by norm_num [t2, w2, hm, width], ?_, by rw [e2, w2]; simp only [absRight, absLeft, h1, hw]; ring⟩
    intro i hlt
    rcases hi i hlt with rfl | rfl | rfl
    · norm_num [absLeft, absRight, t2, hm, hw, width, h0]
    · norm_num [absLeft, absRight, t2, hm, hw, width, h1]
    · exfalso; omega
  · refine ⟨hw, hm, by norm_num [hm, width], by norm_num [w3, hm, width],
      by norm_num [t3], by norm_num [t3], by norm_num [t3, hm],
      by norm_num [t3, w3, hm, width], ?_, by rw [e3, w3]; simp only [absRight, absLeft, h2, hw]; ring⟩
    intro i hlt
    rcases hi i hlt with rfl | rfl | rfl
    · norm_num [absLeft, absRight, t3, hm, hw, width, h0]
    · norm_num [absLeft, absRight, t3, hm, hw, width, h1]
    · norm_num [absLeft, absRight, t3, hm, hw, width, h2]

/-- C8 at a concrete input: a batch of two entries. -/
theorem row_fits_canvas_witness :
    ((2 : Int) = 1 ∨ (2 : Int) = 2 ∨ (2 : Int) = 3)
      ∧ itemw = 294 ∧ margin = 49 ∧ width - margin - margin = 902
      ∧ totalWidthOfItems 2 ≤ width - margin - margin
      ∧ 0 ≤ tx 2 ∧ (tx 2 = 0 ↔ (2 : Int) = 3)
      ∧ margin ≤ margin + tx 2
      ∧ margin + tx 2 + totalWidthOfItems 2 ≤ width - margin
      ∧ (∀ i : Nat, (i : Int) < 2 →
          margin ≤ absLeft 2 i ∧ absLeft 2 i ≤ absRight 2 i ∧ absRight 2 i ≤ width - margin)
      ∧ absRight 2 ((2 : Int) - 1).toNat = margin + tx 2 + totalWidthOfItems 2 :=
  ⟨by decide, row_fits_canvas 2 (by decide)⟩

/-! ## Claims on the title height -/

/-- The measuring loop returns the larger of its start value and the heights met. -/
theorem titleHeightLoop_spec (measure : String → ℚ → ℚ → ℚ) (movies : List StaticMovie) :
    ∀ start : ℚ,
      start ≤ titleHeightLoop measure movies start
      ∧ (∀ it ∈ movies,
          measure it.Title titleWidth (12 / 10) ≤ titleHeightLoop measure movies start)
      ∧ (titleHeightLoop measure movies start = start
          ∨ ∃ it ∈ movies,
              titleHeightLoop measure movies start = measure it.Title titleWidth (12 / 10)) := by
  induction movies with
  | nil => intro start; simp [titleHeightLoop]
  | cons it rest ih =>
    intro start
    simp only [titleHeightLoop]
    by_cases h : measure it.Title titleWidth (12 / 10) > start
    · simp only [h, if_true]
      obtain ⟨a, b, c⟩ := ih (measure it.Title titleWidth (12 / 10))
      refine ⟨le_trans (le_of_lt h) a, ?_, ?_⟩
      · intro jt hj
        rcases List.mem_cons.mp hj with rfl | hj
        · exact a
        · exact b jt hj
      · right
        rcases c with c | ⟨jt, hj, c⟩
        · exact ⟨it, List.mem_cons_self _ _, c⟩
        · exact ⟨jt, List.mem_cons_of_mem _ hj, c⟩
    · simp only [h, if_false]
      obtain ⟨a, b, c⟩ := ih start
      refine ⟨a, ?_, ?_⟩
      · intro jt hj
        rcases List.mem_cons.mp hj with rfl | hj
        · exact le_trans (not_lt.mp h) a
        · exact b jt hj
      · rcases c with c | ⟨jt, hj, c⟩
        · left; exact c
        · right; exact ⟨jt, List.mem_cons_of_mem _ hj, c⟩

/-- C9: for every text-measuring function, the shared titleHeight is at least the wrapped
height of every title of the batch (measured at the column width itemw - 4*10 = 254 and
line spacing 1.2), and it equals the largest of those heights whenever that largest
height is positive. -/
theorem titleHeight_bounds (measure : String → ℚ → ℚ → ℚ) (movies : List StaticMovie) :
    titleWidth = itemw - 4 * 10 ∧ titleWidth = 254
      ∧ (∀ it ∈ movies, measure it.Title titleWidth (12 / 10) ≤ titleHeight measure movies)
      ∧ (∀ it ∈ movies,
          (∀ jt ∈ movies,
            measure jt.Title titleWidth (12 / 10) ≤ measure it.Title titleWidth (12 / 10)) →
          0 < measure it.Title titleWidth (12 / 10) →
          titleHeight measure movies = measure it.Title titleWidth (12 / 10)) := by
  obtain ⟨a, b, c⟩ := titleHeightLoop_spec measure movies 0
  refine ⟨by simp only [titleWidth, inset]; ring,
    by norm_num [titleWidth, itemw, totalSpace, width, inset],
    b, ?_⟩
  intro it hit hmax hpos
  unfold titleHeight
  rcases c with c | ⟨jt, hj, c⟩
  · have := b it hit
    rw [c] at this
    exact absurd hpos (not_lt.mpr this)
  · exact le_antisymm (by rw [c]; exact hmax jt hj) (b it hit)

end Amenic
